import Mathlib

/-!
# CineMatch — verification of the recommendation core

Shallow embedding of the CineMatch recommendation engine:

* serve side (`src/app.py`): the `recommend` query over a loaded movie
  table and similarity matrix, together with the poster lookup
  `fetch_poster` against an external provider;
* build side (`src/scripts/generate_model.py`): the TF-IDF
  vectorization and cosine-similarity pipeline.

Serve-time similarity scores are modelled as rationals (the code only
compares and orders them); the build pipeline is modelled over the
reals, since TF-IDF weights involve a logarithm.
-/

namespace CineMatch

instance {ε α : Type} [DecidableEq ε] [DecidableEq α] : DecidableEq (Except ε α) := fun a b =>
  match a, b with
  | Except.ok x, Except.ok y =>
    if h : x = y then isTrue (by rw [h]) else isFalse (by simp [h])
  | Except.error x, Except.error y =>
    if h : x = y then isTrue (by rw [h]) else isFalse (by simp [h])
  | Except.ok _, Except.error _ => isFalse (by simp)
  | Except.error _, Except.ok _ => isFalse (by simp)

/-- A row of the loaded movie table (`movies.pkl`): the columns
`recommend` reads are `movie_id` and `title`. -/
structure MovieRec where
  movie_id : Nat
  title : String
deriving Repr, DecidableEq

/-- Errors `recommend` can surface: `notFound` is the IndexError raised
by `movies[movies[title] == movie].index[0]` on an unmatched title;
`oob` is an IndexError from an out-of-bounds row/record access;
`provider` is an exception escaping the HTTP poster lookup. -/
inductive RecErr where
  | notFound : RecErr
  | oob : RecErr
  | provider : String → RecErr
deriving Repr, DecidableEq

/-- One element of the list `recommend` returns: the dict
`{title, poster, id}` built per recommended movie. -/
structure Entry where
  title : String
  poster : Option String
  id : Nat
deriving Repr, DecidableEq

/-- Comparison that Python's `sorted(..., key=lambda x: x[1],
reverse=True)` sorts by: `x` may stay before `y` iff `y`'s score does
not exceed `x`'s.  Python's sort is stable, so equal scores keep their
original (ascending-index) order; `List.insertionSort` has the same
stability. -/
def byScoreDesc (x y : Nat × ℚ) : Prop := y.2 ≤ x.2

instance : DecidableRel byScoreDesc := fun x y => inferInstanceAs (Decidable (y.2 ≤ x.2))

instance : IsTotal (Nat × ℚ) byScoreDesc := ⟨fun x y => le_total y.2 x.2⟩

instance : IsTrans (Nat × ℚ) byScoreDesc := ⟨fun _ _ _ h h2 => le_trans h2 h⟩

/-- Model of `sorted(enumerate(similarity[index]), key=lambda x: x[1],
reverse=True)`: the stable descending sort of the (column, score)
pairs of one similarity row. -/
def rankCandidates (row : List ℚ) : List (Nat × ℚ) :=
  List.insertionSort byScoreDesc row.enum

/-- Model of `distances[1:6]`: drop the first ranked pair, keep the next five. -/
def pickTop (row : List ℚ) : List (Nat × ℚ) :=
  ((rankCandidates row).drop 1).take 5

/-- Model of `fetch_poster(movie_id)` (src/app.py:190-193).  The provider models
`requests.get(url).json()`: `Except.error` is a raised exception
(network failure), `Except.ok path?` a JSON response whose
`poster_path` is `path?`.  On a response the function returns the image
URL, or `None` when no `poster_path` is present. -/
def fetch_poster (provider : Nat → Except String (Option String)) (movie_id : Nat) :
    Except String (Option String) := do
  let path? ← provider movie_id
  match path? with
  | some p => pure (some ("https://image.tmdb.org/t/p/w500/" ++ p))
  | none => pure none

/-- Builds the dict `{title: movies.iloc[j].title, poster:
fetch_poster(movies.iloc[j].movie_id), id: movies.iloc[j].movie_id}`
for one ranked pair; `.iloc` raises on an out-of-bounds row. -/
def mkEntry (movies : List MovieRec) (provider : Nat → Except String (Option String))
    (p : Nat × ℚ) : Except RecErr Entry :=
  match movies.get? p.1 with
  | none => throw RecErr.oob
  | some r =>
    match fetch_poster provider r.movie_id with
    | Except.error m => throw (RecErr.provider m)
    | Except.ok poster => pure { title := r.title, poster := poster, id := r.movie_id }

/-- Model of `recommend(movie)` (src/app.py:174-184): resolve the title to the
first matching row index, stably sort that similarity row descending by
score, drop the first pair, and build an entry for each of the next
five. -/
def recommend (movies : List MovieRec) (similarity : List (List ℚ))
    (provider : Nat → Except String (Option String)) (movie : String) :
    Except RecErr (List Entry) :=
  match movies.findIdx? (fun r => r.title == movie) with
  | none => throw RecErr.notFound
  | some index =>
    match similarity.get? index with
    | none => throw RecErr.oob
    | some row => (pickTop row).mapM (mkEntry movies provider)

/-- A provider that always responds and never has a poster path. -/
def okProvider : Nat → Except String (Option String) := fun _ => Except.ok none

/-- A provider whose lookup always raises. -/
def downProvider : Nat → Except String (Option String) := fun _ => Except.error "down"

/-!
## Build side (src/scripts/generate_model.py)

`generate_model` feeds each movie's soup string to
`TfidfVectorizer(stop_words='english').fit_transform` and then
`cosine_similarity(tfidf_matrix, tfidf_matrix)`.  The vectorizer and
the cosine kernel are library calls whose implementation is not part of
this repository, so they are modelled from the spec below.  The
stop-word list is a parameter `stop`; the spec's claims hold for every
list, in particular for the fixed English one.
-/

/-- Accumulating scanner for `tokenize`: walks the characters, growing
the current (reversed) token in `acc`, lowercasing letters, and closing
the token at every non-alphanumeric character. -/
def tokenizeAux : List Char → List Char → List String
  | [], acc => if acc.isEmpty then [] else [String.mk acc.reverse]
  | c :: cs, acc =>
    if c.isAlphanum then tokenizeAux cs (c.toLower :: acc)
    else if acc.isEmpty then tokenizeAux cs []
    else String.mk acc.reverse :: tokenizeAux cs []

/-- Modelled from the spec: tokenization of a soup string — lowercase
word splitting delimited by whitespace/punctuation (every
non-alphanumeric character separates tokens; empty fragments are
discarded). -/
def tokenize (s : String) : List String := tokenizeAux s.data []

/-- Modelled from the spec: the shared vocabulary over the whole
corpus — every token of every soup, excluding stop words. -/
def vocab (stop : List String) (corpus : List String) : Finset String :=
  (corpus.flatMap tokenize).toFinset.filter (fun t => t ∉ stop)

/-- Raw term count of term `t` in document `d` (term frequency). -/
def tf (d t : String) : ℕ := (tokenize d).count t

/-- Document frequency of term `t`: the number of corpus documents
containing it. -/
def df (corpus : List String) (t : String) : ℕ :=
  (corpus.filter (fun d => decide (t ∈ tokenize d))).length

/-- Modelled from the spec: smoothed inverse document frequency,
`log((1 + N) / (1 + df(t))) + 1`. -/
noncomputable def idf (corpus : List String) (t : String) : ℝ :=
  Real.log ((1 + corpus.length) / (1 + df corpus t)) + 1

/-- Modelled from the spec: the raw TF-IDF weight of term `t` in
document `d`, `tf × idf`, before row normalization. -/
noncomputable def weight (corpus : List String) (d t : String) : ℝ :=
  tf d t * idf corpus t

/-- Euclidean norm of document `d`'s raw weight vector over the
vocabulary. -/
noncomputable def rowNorm (stop corpus : List String) (d : String) : ℝ :=
  Real.sqrt (∑ t ∈ vocab stop corpus, weight corpus d t ^ 2)

/-- Modelled from the spec: the L2-normalized TF-IDF weight — each raw
weight divided by the document's Euclidean norm (in this exact-real
model a division by a zero norm yields 0, matching the guarded
normalization that leaves an all-zero row at zero). -/
noncomputable def nweight (stop corpus : List String) (d t : String) : ℝ :=
  weight corpus d t / rowNorm stop corpus d

/-- Modelled from the spec: cosine similarity of corpus documents `i`
and `j` — the dot product of their L2-normalized TF-IDF vectors.
Out-of-range indices read as the empty document. -/
noncomputable def sim (stop corpus : List String) (i j : ℕ) : ℝ :=
  ∑ t ∈ vocab stop corpus,
    nweight stop corpus (corpus.getD i "") t * nweight stop corpus (corpus.getD j "") t

/-- The persisted dense N×N similarity matrix, row and column order
following corpus order. -/
noncomputable def similarityMatrix (stop corpus : List String) : List (List ℝ) :=
  (List.range corpus.length).map fun i =>
    (List.range corpus.length).map fun j => sim stop corpus i j

/-- Entry `(i, j)` of the persisted matrix, read totally (0 outside the
matrix). -/
noncomputable def matEntry (stop corpus : List String) (i j : ℕ) : ℝ :=
  ((similarityMatrix stop corpus).getD i []).getD j 0

/-!
## Concrete corpora and models used by witnesses and counterexamples
-/

/-- A two-movie corpus whose second movie has an entirely empty soup
(empty overview/genres/keywords/cast/director). -/
def corpusEmptySoup : List String := ["good movie", ""]

/-- A one-movie corpus with a single term. -/
def corpusOne : List String := ["xy"]

/-- Two movies whose soups coincide, so their similarity ties the
self-similarity score. -/
def moviesTie : List MovieRec := [⟨1, "A"⟩, ⟨2, "B"⟩]

/-- A similarity matrix with an off-diagonal score equal to the
diagonal self-similarity score. -/
def simTie : List (List ℚ) := [[1, 1], [1, 1]]

/-- A three-movie table with pairwise distinct similarity scores. -/
def moviesABC : List MovieRec := [⟨10, "A"⟩, ⟨20, "B"⟩, ⟨30, "C"⟩]

/-- Similarity matrix for `moviesABC`: strictly dominant diagonal,
pairwise distinct scores per row. -/
def simABC : List (List ℚ) := [[8, 4, 2], [4, 8, 6], [2, 6, 8]]

/-- A single-movie table. -/
def moviesSolo : List MovieRec := [⟨10, "A"⟩]

/-- Similarity matrix for `moviesSolo`. -/
def simSolo : List (List ℚ) := [[1]]

/-!
## Serve-side lemmas
-/

theorem rankCandidates_perm (row : List ℚ) : List.Perm (rankCandidates row) row.enum :=
  List.perm_insertionSort byScoreDesc row.enum

theorem rankCandidates_length (row : List ℚ) : (rankCandidates row).length = row.length := by
  rw [(rankCandidates_perm row).length_eq, List.enum_length]

theorem mem_rankCandidates {row : List ℚ} {p : ℕ × ℚ} :
    p ∈ rankCandidates row ↔ p ∈ row.enum :=
  List.mem_insertionSort byScoreDesc

theorem pickTop_sublist (row : List ℚ) : List.Sublist (pickTop row) (rankCandidates row) :=
  (List.take_sublist _ _).trans (List.drop_sublist _ _)

theorem mem_pickTop_enum {row : List ℚ} {p : ℕ × ℚ} (h : p ∈ pickTop row) : p ∈ row.enum :=
  mem_rankCandidates.mp ((pickTop_sublist row).subset h)

theorem mem_enum_fst_lt {row : List ℚ} {p : ℕ × ℚ} (h : p ∈ row.enum) : p.1 < row.length := by
  have := List.mem_enum_iff_getElem?.mp h
  exact (List.getElem?_eq_some.mp this).1

theorem mem_enum_getD {row : List ℚ} {p : ℕ × ℚ} (h : p ∈ row.enum) : row.getD p.1 0 = p.2 := by
  rw [List.getD_eq_getElem?_getD, List.mem_enum_iff_getElem?.mp h, Option.getD_some]

theorem pickTop_length (row : List ℚ) :
    (pickTop row).length = min 5 (row.length - 1) := by
  rw [pickTop, List.length_take, List.length_drop, rankCandidates_length]

theorem rankCandidates_sorted (row : List ℚ) :
    (rankCandidates row).Pairwise byScoreDesc :=
  List.sorted_insertionSort byScoreDesc row.enum

theorem pairwise_orderedInsert {α : Type} (Q : α → α → Prop) (r : α → α → Prop)
    [DecidableRel r] (a : α) :
    ∀ l : List α, l.Pairwise Q → (∀ y ∈ l, Q a y) → (∀ y ∈ l, ¬r a y → Q y a) →
      (l.orderedInsert r a).Pairwise Q
  | [], _, _, _ => List.pairwise_singleton Q a
  | b :: bs, hl, ha, hb => by
    rcases List.pairwise_cons.mp hl with ⟨hbbs, hbs⟩
    by_cases h : r a b
    · rw [List.orderedInsert, if_pos h]
      exact List.pairwise_cons.mpr ⟨ha, hl⟩
    · rw [List.orderedInsert, if_neg h]
      refine List.pairwise_cons.mpr ⟨?_, ?_⟩
      · intro y hy
        rcases (List.mem_orderedInsert r).mp hy with hya | hybs
        · exact hya ▸ hb b (List.mem_cons_self b bs) h
        · exact hbbs y hybs
      · exact pairwise_orderedInsert Q r a bs hbs
          (fun y hy => ha y (List.mem_cons_of_mem b hy))
          (fun y hy hr => hb y (List.mem_cons_of_mem b hy) hr)

theorem tiebreak_insertionSort :
    ∀ l : List (ℕ × ℚ), l.Pairwise (fun x y => x.1 < y.1) →
      (List.insertionSort byScoreDesc l).Pairwise fun x y => x.2 = y.2 → x.1 < y.1
  | [], _ => List.Pairwise.nil
  | b :: bs, h => by
    rcases List.pairwise_cons.mp h with ⟨hb, hbs⟩
    rw [List.insertionSort]
    refine pairwise_orderedInsert _ byScoreDesc b _ (tiebreak_insertionSort bs hbs) ?_ ?_
    · intro y hy _
      exact hb y ((List.mem_insertionSort byScoreDesc).mp hy)
    · intro y _ hr heq
      exact absurd (le_of_eq heq) hr

theorem enum_pairwise_fst (l : List ℚ) : l.enum.Pairwise fun x y => x.1 < y.1 := by
  have h := List.pairwise_lt_range l.length
  rw [← List.enum_map_fst l] at h
  exact List.pairwise_map.mp h

theorem rankCandidates_tiebreak (row : List ℚ) :
    (rankCandidates row).Pairwise fun x y => x.2 = y.2 → x.1 < y.1 :=
  tiebreak_insertionSort row.enum (enum_pairwise_fst row)

theorem pickTop_ordered (row : List ℚ) :
    (pickTop row).Pairwise fun x y => y.2 ≤ x.2 ∧ (x.2 = y.2 → x.1 < y.1) :=
  ((rankCandidates_sorted row).and (rankCandidates_tiebreak row)).sublist (pickTop_sublist row)

theorem recommend_eq {movies : List MovieRec} {similarity : List (List ℚ)}
    {provider : Nat → Except String (Option String)} {t : String} {i : Nat} {row : List ℚ}
    (hfind : movies.findIdx? (fun r => r.title == t) = some i)
    (hrow : similarity.get? i = some row) :
    recommend movies similarity provider t = (pickTop row).mapM (mkEntry movies provider) := by
  simp only [recommend, hfind, hrow]

theorem mapM_except_cons {α β : Type} (f : α → Except RecErr β) (a : α) (as : List α) :
    (a :: as).mapM f =
      match f a with
      | Except.error e => Except.error e
      | Except.ok b =>
        match as.mapM f with
        | Except.error e => Except.error e
        | Except.ok bs => Except.ok (b :: bs) := by
  rw [List.mapM_cons]
  cases f a with
  | error e => rfl
  | ok b =>
    cases hrest : as.mapM f with
    | error e => rfl
    | ok bs => rfl

theorem mapM_ok_of_forall_ok {α β : Type} (f : α → Except RecErr β) :
    ∀ l : List α, (∀ a ∈ l, ∃ b, f a = Except.ok b) →
      ∃ bs, l.mapM f = Except.ok bs ∧ bs.length = l.length
  | [], _ => ⟨[], rfl, rfl⟩
  | a :: as, h => by
    obtain ⟨b, hb⟩ := h a (List.mem_cons_self a as)
    obtain ⟨bs, hbs, hlen⟩ :=
      mapM_ok_of_forall_ok f as fun x hx => h x (List.mem_cons_of_mem a hx)
    refine ⟨b :: bs, ?_, by simp [hlen]⟩
    rw [mapM_except_cons, hb, hbs]

theorem mapM_ne_error {α β : Type} (f : α → Except RecErr β) (e : RecErr) :
    ∀ l : List α, (∀ a ∈ l, f a ≠ Except.error e) → l.mapM f ≠ Except.error e
  | [], _ => fun hh => Except.noConfusion hh
  | a :: as, h => by
    rw [mapM_except_cons]
    cases hfa : f a with
    | error err =>
      have hne : err ≠ e := fun hh => h a (List.mem_cons_self a as) (by rw [hfa, hh])
      simpa using hne
    | ok b =>
      cases hrest : as.mapM f with
      | error err =>
        have hne := mapM_ne_error f e as fun x hx => h x (List.mem_cons_of_mem a hx)
        rw [hrest] at hne
        simpa using fun hh => hne (by rw [hh])
      | ok bs => simp

theorem mkEntry_cases (movies : List MovieRec)
    (provider : Nat → Except String (Option String)) (p : Nat × ℚ) :
    mkEntry movies provider p = Except.error RecErr.oob ∨
    (∃ m, mkEntry movies provider p = Except.error (RecErr.provider m)) ∨
    (∃ r v, movies.get? p.1 = some r ∧
      mkEntry movies provider p = Except.ok { title := r.title, poster := v, id := r.movie_id }) := by
  cases hg : movies.get? p.1 with
  | none =>
    refine Or.inl ?_
    simp only [mkEntry, hg]
    rfl
  | some r =>
    cases hf : fetch_poster provider r.movie_id with
    | error m =>
      refine Or.inr (Or.inl ⟨m, ?_⟩)
      simp only [mkEntry, hg, hf]
      rfl
    | ok v =>
      refine Or.inr (Or.inr ⟨r, v, rfl, ?_⟩)
      simp only [mkEntry, hg, hf]
      rfl

theorem mkEntry_ne_notFound (movies : List MovieRec)
    (provider : Nat → Except String (Option String)) (p : Nat × ℚ) :
    mkEntry movies provider p ≠ Except.error RecErr.notFound := by
  rcases mkEntry_cases movies provider p with h | ⟨m, h⟩ | ⟨r, v, _, h⟩ <;> rw [h] <;> simp

theorem fetch_poster_ok {provider : Nat → Except String (Option String)}
    (hprov : ∀ id2, ∃ v, provider id2 = Except.ok v) (movie_id : Nat) :
    ∃ v, fetch_poster provider movie_id = Except.ok v := by
  obtain ⟨v, hv⟩ := hprov movie_id
  rw [fetch_poster, hv]
  cases v with
  | some p => exact ⟨_, rfl⟩
  | none => exact ⟨none, rfl⟩

theorem mkEntry_ok {movies : List MovieRec} {provider : Nat → Except String (Option String)}
    {p : Nat × ℚ} (hp : p.1 < movies.length)
    (hprov : ∀ id2, ∃ v, provider id2 = Except.ok v) :
    ∃ en, mkEntry movies provider p = Except.ok en := by
  cases hg : movies.get? p.1 with
  | none => exact absurd (List.get?_eq_none.mp hg) (by omega)
  | some r =>
    obtain ⟨v, hv⟩ := fetch_poster_ok hprov r.movie_id
    refine ⟨{ title := r.title, poster := v, id := r.movie_id }, ?_⟩
    simp only [mkEntry, hg, hv]
    rfl

theorem findIdx?_lt_length {movies : List MovieRec} {t : String} {i : Nat}
    (hfind : movies.findIdx? (fun r => r.title == t) = some i) : i < movies.length := by
  obtain ⟨h, -⟩ := List.findIdx?_eq_some_iff_getElem.mp hfind
  exact h

theorem findIdx?_some_of_present {movies : List MovieRec} {t : String}
    (hp : ∃ r ∈ movies, r.title = t) :
    ∃ i, movies.findIdx? (fun r => r.title == t) = some i := by
  cases hf : movies.findIdx? (fun r => r.title == t) with
  | some i => exact ⟨i, rfl⟩
  | none =>
    obtain ⟨r, hr, ht⟩ := hp
    have hfalse := List.findIdx?_eq_none_iff.mp hf r hr
    rw [ht] at hfalse
    simp at hfalse

theorem exists_ok_recommend {movies : List MovieRec} {similarity : List (List ℚ)}
    {provider : Nat → Except String (Option String)} {t : String} {i : Nat}
    (hwf₁ : similarity.length = movies.length)
    (hwf₂ : ∀ r ∈ similarity, r.length = movies.length)
    (hprov : ∀ id2, ∃ v, provider id2 = Except.ok v)
    (hfind : movies.findIdx? (fun r => r.title == t) = some i) :
    ∃ row, similarity.get? i = some row ∧ row.length = movies.length ∧
      ∃ es, recommend movies similarity provider t = Except.ok es ∧
        es.length = (pickTop row).length := by
  have hi : i < movies.length := findIdx?_lt_length hfind
  have hi2 : i < similarity.length := by omega
  obtain ⟨row, hrow⟩ : ∃ row, similarity.get? i = some row := ⟨_, List.get?_eq_get hi2⟩
  have hlen : row.length = movies.length := hwf₂ row (List.get?_mem hrow)
  refine ⟨row, hrow, hlen, ?_⟩
  obtain ⟨es, hes, hlen2⟩ := mapM_ok_of_forall_ok (mkEntry movies provider) (pickTop row)
    fun p hp => mkEntry_ok (hlen ▸ mem_enum_fst_lt (mem_pickTop_enum hp)) hprov
  exact ⟨es, by rw [recommend_eq hfind hrow]; exact hes, hlen2⟩

theorem pickTop_ne_dominant {row : List ℚ} {i : Nat}
    (hdom : ∀ j, j < row.length → j ≠ i → row.getD j 0 < row.getD i 0) :
    ∀ p ∈ pickTop row, p.1 ≠ i := by
  intro p hp hpi
  cases hs : rankCandidates row with
  | nil =>
    rw [pickTop, hs] at hp
    simp at hp
  | cons hd tl =>
    have hp_tl : p ∈ tl := by
      rw [pickTop, hs] at hp
      exact List.mem_of_mem_take hp
    have hhd_enum : hd ∈ row.enum := mem_rankCandidates.mp (hs ▸ List.mem_cons_self hd tl)
    have hp_enum : p ∈ row.enum := mem_pickTop_enum hp
    have hhd_lt : hd.1 < row.length := mem_enum_fst_lt hhd_enum
    have hhd_val : row.getD hd.1 0 = hd.2 := mem_enum_getD hhd_enum
    have hp_val : row.getD p.1 0 = p.2 := mem_enum_getD hp_enum
    by_cases hcase : hd.1 = i
    · have hnodup : ((rankCandidates row).map Prod.fst).Nodup := by
        have hperm := (rankCandidates_perm row).map Prod.fst
        rw [List.enum_map_fst] at hperm
        exact hperm.nodup_iff.mpr (List.nodup_range _)
      rw [hs, List.map_cons] at hnodup
      have hnotin : hd.1 ∉ tl.map Prod.fst := (List.nodup_cons.mp hnodup).1
      have hin : p.1 ∈ tl.map Prod.fst := List.mem_map_of_mem Prod.fst hp_tl
      rw [hpi, ← hcase] at hin
      exact hnotin hin
    · have hlt : row.getD hd.1 0 < row.getD i 0 := hdom hd.1 hhd_lt hcase
      have hsorted := rankCandidates_sorted row
      rw [hs] at hsorted
      have hrel : p.2 ≤ hd.2 := (List.pairwise_cons.mp hsorted).1 p hp_tl
      rw [hpi] at hp_val
      rw [hp_val] at hlt
      rw [← hhd_val] at hrel
      exact absurd (lt_of_le_of_lt hrel hlt) (lt_irrefl _)

/-!
## Claims about the Query Engine (C1–C5, C10)
-/

/-- C1, counterexample: with two movies of identical similarity rows
(an off-diagonal score tying the self-similarity score from a lower
corpus index), `recommend "B"` returns the queried movie itself — the
code only drops the first element of the stable descending sort, and
the tied row 0 occupies that position. -/
theorem recommend_returns_query_on_tie :
    recommend moviesTie simTie okProvider "B" =
      Except.ok [{ title := "B", poster := none, id := 2 }] := by
  decide

/-- C1 (amended): when the queried movie's score strictly dominates
every other score in its similarity row, the first element of the
stable descending sort is the queried row itself, so the returned
entries — built from `pickTop` — never refer to the queried corpus
row.  With a tie at the self-similarity score from a lower index this
fails (see the counterexample). -/
theorem recommend_excludes_query (movies : List MovieRec) (similarity : List (List ℚ))
    (provider : Nat → Except String (Option String)) (t : String) (i : Nat) (row : List ℚ)
    (hfind : movies.findIdx? (fun r => r.title == t) = some i)
    (hrow : similarity.get? i = some row)
    (hdom : ∀ j, j < row.length → j ≠ i → row.getD j 0 < row.getD i 0) :
    recommend movies similarity provider t = (pickTop row).mapM (mkEntry movies provider) ∧
    ∀ p ∈ pickTop row, p.1 ≠ i :=
  ⟨recommend_eq hfind hrow, pickTop_ne_dominant hdom⟩

/-- Witness for C1 (amended) at a concrete model: querying "A" in a
three-movie corpus with strictly dominant diagonal. -/
theorem recommend_excludes_query_witness :
    moviesABC.findIdx? (fun r => r.title == "A") = some 0 ∧
    simABC.get? 0 = some [8, 4, 2] ∧
    (recommend moviesABC simABC okProvider "A" =
      (pickTop [8, 4, 2]).mapM (mkEntry moviesABC okProvider) ∧
     ∀ p ∈ pickTop [8, 4, 2], p.1 ≠ 0) :=
  ⟨by decide, by decide,
   recommend_excludes_query moviesABC simABC okProvider "A" 0 [8, 4, 2]
     (by decide) (by decide) (by decide)⟩

/-- C2, counterexample: the queried title is present, but a provider
whose lookup raises makes `recommend` itself fail — the poster lookup
is performed inside `recommend` with no error handling, so the ranking
is not returned. -/
theorem recommend_fails_on_provider_error :
    (∃ r ∈ moviesABC, r.title = "A") ∧
    recommend moviesABC simABC downProvider "A" =
      Except.error (RecErr.provider "down") := by
  decide

/-- C2 (amended): a provider lookup that responds — even with no
poster data — never prevents `recommend` from returning its ranked
result; only a raised provider exception propagates (see the
counterexample). -/
theorem recommend_ok_of_responding_provider (movies : List MovieRec)
    (similarity : List (List ℚ)) (provider : Nat → Except String (Option String)) (t : String)
    (hwf₁ : similarity.length = movies.length)
    (hwf₂ : ∀ r ∈ similarity, r.length = movies.length)
    (hprov : ∀ id2, ∃ v, provider id2 = Except.ok v)
    (hpresent : ∃ r ∈ movies, r.title = t) :
    ∃ es, recommend movies similarity provider t = Except.ok es := by
  obtain ⟨i, hfind⟩ := findIdx?_some_of_present hpresent
  obtain ⟨row, hrow, hlen, es, hok, hlen2⟩ := exists_ok_recommend hwf₁ hwf₂ hprov hfind
  exact ⟨es, hok⟩

/-- Witness for C2 (amended): the no-poster provider still lets
`recommend` return. -/
theorem recommend_ok_of_responding_provider_witness :
    simABC.length = moviesABC.length ∧
    (∃ r ∈ moviesABC, r.title = "A") ∧
    ∃ es, recommend moviesABC simABC okProvider "A" = Except.ok es :=
  ⟨by decide, by decide,
   recommend_ok_of_responding_provider moviesABC simABC okProvider "A"
     (by decide) (by decide) (fun _ => ⟨none, rfl⟩) (by decide)⟩

/-- C3: `recommend` fails with NotFound exactly when the queried title
matches no corpus record; when the title is present (and the loaded
model is well-formed, the provider responding) it returns normally
rather than an empty or failed result. -/
theorem recommend_notFound_iff (movies : List MovieRec) (similarity : List (List ℚ))
    (provider : Nat → Except String (Option String)) (t : String)
    (hwf₁ : similarity.length = movies.length)
    (hwf₂ : ∀ r ∈ similarity, r.length = movies.length)
    (hprov : ∀ id2, ∃ v, provider id2 = Except.ok v) :
    (recommend movies similarity provider t = Except.error RecErr.notFound ↔
      ∀ r ∈ movies, r.title ≠ t) ∧
    ((∃ r ∈ movies, r.title = t) →
      ∃ es, recommend movies similarity provider t = Except.ok es) := by
  constructor
  · constructor
    · intro herr r hr ht
      obtain ⟨i, hfind⟩ := findIdx?_some_of_present ⟨r, hr, ht⟩
      obtain ⟨row, hrow, hlen, es, hok, -⟩ := exists_ok_recommend hwf₁ hwf₂ hprov hfind
      rw [hok] at herr
      exact Except.noConfusion herr
    · intro hall
      have hnone : movies.findIdx? (fun r => r.title == t) = none :=
        List.findIdx?_eq_none_iff.mpr fun x hx => by simpa using hall x hx
      simp only [recommend, hnone]
      rfl
  · intro hp
    obtain ⟨i, hfind⟩ := findIdx?_some_of_present hp
    obtain ⟨row, hrow, hlen, es, hok, -⟩ := exists_ok_recommend hwf₁ hwf₂ hprov hfind
    exact ⟨es, hok⟩

/-- Witness for C3 at a concrete model: the present title "A". -/
theorem recommend_notFound_iff_witness :
    simABC.length = moviesABC.length ∧
    ((recommend moviesABC simABC okProvider "A" = Except.error RecErr.notFound ↔
        ∀ r ∈ moviesABC, r.title ≠ "A") ∧
      ((∃ r ∈ moviesABC, r.title = "A") →
        ∃ es, recommend moviesABC simABC okProvider "A" = Except.ok es)) :=
  ⟨by decide,
   recommend_notFound_iff moviesABC simABC okProvider "A" (by decide) (by decide)
     (fun _ => ⟨none, rfl⟩)⟩

/-- C4: the candidate list `recommend` builds its entries from, in
order, is `pickTop row`, and that list is sorted by non-increasing
score with equal-score ties broken by ascending original corpus
index. -/
theorem recommend_ordering (movies : List MovieRec) (similarity : List (List ℚ))
    (provider : Nat → Except String (Option String)) (t : String) (i : Nat) (row : List ℚ)
    (hfind : movies.findIdx? (fun r => r.title == t) = some i)
    (hrow : similarity.get? i = some row) :
    recommend movies similarity provider t = (pickTop row).mapM (mkEntry movies provider) ∧
    (pickTop row).Pairwise fun x y => y.2 ≤ x.2 ∧ (x.2 = y.2 → x.1 < y.1) :=
  ⟨recommend_eq hfind hrow, pickTop_ordered row⟩

/-- Witness for C4 at a concrete model: querying "B", whose row has
distinct scores. -/
theorem recommend_ordering_witness :
    moviesABC.findIdx? (fun r => r.title == "B") = some 1 ∧
    simABC.get? 1 = some [4, 8, 6] ∧
    (recommend moviesABC simABC okProvider "B" =
      (pickTop [4, 8, 6]).mapM (mkEntry moviesABC okProvider) ∧
     (pickTop [4, 8, 6]).Pairwise fun x y => y.2 ≤ x.2 ∧ (x.2 = y.2 → x.1 < y.1)) :=
  ⟨by decide, by decide,
   recommend_ordering moviesABC simABC okProvider "B" 1 [4, 8, 6] (by decide) (by decide)⟩

/-- C5: on a well-formed model with the queried title present,
`recommend` (with its hard-coded K = 5) returns exactly
`min 5 (corpus size − 1)` entries. -/
theorem recommend_result_length (movies : List MovieRec) (similarity : List (List ℚ))
    (provider : Nat → Except String (Option String)) (t : String)
    (hwf₁ : similarity.length = movies.length)
    (hwf₂ : ∀ r ∈ similarity, r.length = movies.length)
    (hprov : ∀ id2, ∃ v, provider id2 = Except.ok v)
    (hpresent : ∃ r ∈ movies, r.title = t) :
    ∃ es, recommend movies similarity provider t = Except.ok es ∧
      es.length = min 5 (movies.length - 1) := by
  obtain ⟨i, hfind⟩ := findIdx?_some_of_present hpresent
  obtain ⟨row, hrow, hlen, es, hok, hlen2⟩ := exists_ok_recommend hwf₁ hwf₂ hprov hfind
  exact ⟨es, hok, by rw [hlen2, pickTop_length, hlen]⟩

/-- Witness for C5: three movies, K = 5, result length 2. -/
theorem recommend_result_length_witness :
    simABC.length = moviesABC.length ∧
    (∃ r ∈ moviesABC, r.title = "C") ∧
    ∃ es, recommend moviesABC simABC okProvider "C" = Except.ok es ∧
      es.length = min 5 (moviesABC.length - 1) :=
  ⟨by decide, by decide,
   recommend_result_length moviesABC simABC okProvider "C" (by decide) (by decide)
     (fun _ => ⟨none, rfl⟩) (by decide)⟩

/-- C10: on a loaded model whose similarity matrix has one row and one
column per corpus record, a present title makes `recommend` complete
without any out-of-bounds access — it returns a result — and on a
single-movie corpus that result is empty. -/
theorem recommend_no_oob (movies : List MovieRec) (similarity : List (List ℚ))
    (provider : Nat → Except String (Option String)) (t : String)
    (hwf₁ : similarity.length = movies.length)
    (hwf₂ : ∀ r ∈ similarity, r.length = movies.length)
    (hprov : ∀ id2, ∃ v, provider id2 = Except.ok v)
    (hpresent : ∃ r ∈ movies, r.title = t) :
    (∃ es, recommend movies similarity provider t = Except.ok es) ∧
    (movies.length = 1 → recommend movies similarity provider t = Except.ok []) := by
  obtain ⟨i, hfind⟩ := findIdx?_some_of_present hpresent
  obtain ⟨row, hrow, hlen, es, hok, hlen2⟩ := exists_ok_recommend hwf₁ hwf₂ hprov hfind
  refine ⟨⟨es, hok⟩, fun h1 => ?_⟩
  have hzero : es.length = 0 := by simp [hlen2, pickTop_length, hlen, h1]
  rw [hok, List.length_eq_zero.mp hzero]

/-- Witness for C10: the single-movie corpus, where the result is
empty. -/
theorem recommend_no_oob_witness :
    simSolo.length = moviesSolo.length ∧
    (∃ r ∈ moviesSolo, r.title = "A") ∧
    ((∃ es, recommend moviesSolo simSolo okProvider "A" = Except.ok es) ∧
     (moviesSolo.length = 1 → recommend moviesSolo simSolo okProvider "A" = Except.ok [])) :=
  ⟨by decide, by decide,
   recommend_no_oob moviesSolo simSolo okProvider "A" (by decide) (by decide)
     (fun _ => ⟨none, rfl⟩) (by decide)⟩

/-!
## Build-side lemmas
-/

theorem df_le_length (corpus : List String) (t : String) : df corpus t ≤ corpus.length :=
  List.length_filter_le _ _

theorem one_le_idf (corpus : List String) (t : String) : 1 ≤ idf corpus t := by
  have hdf : (df corpus t : ℝ) ≤ corpus.length := by exact_mod_cast df_le_length corpus t
  have hpos : (0 : ℝ) < 1 + df corpus t := by positivity
  have harg : (1 : ℝ) ≤ (1 + corpus.length) / (1 + df corpus t) := by
    rw [one_le_div hpos]
    linarith
  have hlog := Real.log_nonneg harg
  rw [idf]
  linarith

theorem idf_nonneg (corpus : List String) (t : String) : 0 ≤ idf corpus t :=
  le_trans zero_le_one (one_le_idf corpus t)

theorem weight_nonneg (corpus : List String) (d t : String) : 0 ≤ weight corpus d t :=
  mul_nonneg (Nat.cast_nonneg _) (idf_nonneg corpus t)

theorem rowNorm_nonneg (stop corpus : List String) (d : String) : 0 ≤ rowNorm stop corpus d :=
  Real.sqrt_nonneg _

theorem nweight_nonneg (stop corpus : List String) (d t : String) :
    0 ≤ nweight stop corpus d t :=
  div_nonneg (weight_nonneg corpus d t) (rowNorm_nonneg stop corpus d)

theorem sumSq_nonneg (stop corpus : List String) (d : String) :
    0 ≤ ∑ t ∈ vocab stop corpus, weight corpus d t ^ 2 :=
  Finset.sum_nonneg fun _ _ => sq_nonneg _

theorem rowNorm_sq (stop corpus : List String) (d : String) :
    rowNorm stop corpus d ^ 2 = ∑ t ∈ vocab stop corpus, weight corpus d t ^ 2 :=
  Real.sq_sqrt (sumSq_nonneg stop corpus d)

theorem sumSq_ne_zero_of_rowNorm_ne {stop corpus : List String} {d : String}
    (h : rowNorm stop corpus d ≠ 0) :
    (∑ t ∈ vocab stop corpus, weight corpus d t ^ 2) ≠ 0 := by
  intro h0
  apply h
  rw [rowNorm, h0, Real.sqrt_zero]

theorem sum_nweight_sq {stop corpus : List String} {d : String}
    (h : rowNorm stop corpus d ≠ 0) :
    ∑ t ∈ vocab stop corpus, nweight stop corpus d t ^ 2 = 1 := by
  have hstep : ∑ t ∈ vocab stop corpus, nweight stop corpus d t ^ 2
      = (∑ t ∈ vocab stop corpus, weight corpus d t ^ 2) / rowNorm stop corpus d ^ 2 := by
    rw [Finset.sum_div]
    exact Finset.sum_congr rfl fun t _ => by rw [nweight, div_pow]
  rw [hstep, rowNorm_sq]
  exact div_self (sumSq_ne_zero_of_rowNorm_ne h)

theorem sum_nweight_sq_le_one (stop corpus : List String) (d : String) :
    ∑ t ∈ vocab stop corpus, nweight stop corpus d t ^ 2 ≤ 1 := by
  by_cases h : rowNorm stop corpus d = 0
  · have hz : ∀ t ∈ vocab stop corpus, nweight stop corpus d t ^ 2 = 0 := by
      intro t _
      rw [nweight, h, div_zero]
      norm_num
    rw [Finset.sum_eq_zero hz]
    norm_num
  · rw [sum_nweight_sq h]

theorem sim_nonneg (stop corpus : List String) (i j : ℕ) : 0 ≤ sim stop corpus i j :=
  Finset.sum_nonneg fun t _ =>
    mul_nonneg (nweight_nonneg stop corpus _ t) (nweight_nonneg stop corpus _ t)

theorem sim_le_one (stop corpus : List String) (i j : ℕ) : sim stop corpus i j ≤ 1 := by
  have hcs := Finset.sum_mul_sq_le_sq_mul_sq (vocab stop corpus)
    (fun t => nweight stop corpus (corpus.getD i "") t)
    (fun t => nweight stop corpus (corpus.getD j "") t)
  have h1 := sum_nweight_sq_le_one stop corpus (corpus.getD i "")
  have h2 := sum_nweight_sq_le_one stop corpus (corpus.getD j "")
  have hsq : sim stop corpus i j ^ 2 ≤ 1 := by
    calc sim stop corpus i j ^ 2 ≤ _ := hcs
    _ ≤ 1 * 1 :=
      mul_le_mul h1 h2 (Finset.sum_nonneg fun _ _ => sq_nonneg _) zero_le_one
    _ = 1 := one_mul 1
  nlinarith [sim_nonneg stop corpus i j]

theorem sim_comm (stop corpus : List String) (i j : ℕ) :
    sim stop corpus i j = sim stop corpus j i :=
  Finset.sum_congr rfl fun _ _ => mul_comm _ _

theorem sim_self_eq_one {stop corpus : List String} {i : ℕ}
    (h : rowNorm stop corpus (corpus.getD i "") ≠ 0) :
    sim stop corpus i i = 1 := by
  rw [sim]
  have hsq : ∀ t ∈ vocab stop corpus,
      nweight stop corpus (corpus.getD i "") t * nweight stop corpus (corpus.getD i "") t
        = nweight stop corpus (corpus.getD i "") t ^ 2 :=
    fun t _ => (pow_two _).symm
  rw [Finset.sum_congr rfl hsq]
  exact sum_nweight_sq h

theorem getD_map_range {β : Type} (dflt : β) (f : ℕ → β) {n i : ℕ} (hi : i < n) :
    ((List.range n).map f).getD i dflt = f i := by
  rw [List.getD_eq_getElem?_getD, List.getElem?_map, List.getElem?_range hi]
  rfl

theorem getD_map_range_oob {β : Type} (dflt : β) (f : ℕ → β) {n i : ℕ} (hi : n ≤ i) :
    ((List.range n).map f).getD i dflt = dflt := by
  rw [List.getD_eq_getElem?_getD,
    List.getElem?_eq_none (by rw [List.length_map, List.length_range]; exact hi)]
  rfl

theorem matEntry_of_lt {stop corpus : List String} {i j : ℕ}
    (hi : i < corpus.length) (hj : j < corpus.length) :
    matEntry stop corpus i j = sim stop corpus i j := by
  rw [matEntry, similarityMatrix, getD_map_range _ _ hi, getD_map_range _ _ hj]

theorem matEntry_of_oob {stop corpus : List String} {i j : ℕ}
    (h : ¬(i < corpus.length ∧ j < corpus.length)) :
    matEntry stop corpus i j = 0 := by
  rw [matEntry, similarityMatrix]
  by_cases hi : i < corpus.length
  · rw [getD_map_range _ _ hi, getD_map_range_oob _ _ (by omega)]
  · rw [getD_map_range_oob _ _ (by omega)]
    rfl

theorem tf_empty_doc (t : String) : tf "" t = 0 := rfl

theorem vocab_corpusOne : vocab [] corpusOne = {"xy"} := by decide

theorem rowNorm_corpusOne : rowNorm [] corpusOne "xy" = 1 := by
  rw [rowNorm, vocab_corpusOne, Finset.sum_singleton, weight]
  have htf : tf "xy" "xy" = 1 := by decide
  have hdf : df corpusOne "xy" = 1 := by decide
  rw [htf, idf, hdf]
  norm_num [corpusOne, Real.log_one, Real.sqrt_one]

/-!
## Claims about the build pipeline (C6–C9)
-/

/-- C6, counterexample: a movie with an entirely empty soup has the
all-zero raw vector, and after "normalization" its vector still has
squared norm 0, not 1 — so not every movie's vector is L2-normalized to
unit Euclidean norm. -/
theorem empty_soup_not_unit_norm :
    "" ∈ corpusEmptySoup ∧
    (∑ t ∈ vocab [] corpusEmptySoup, nweight [] corpusEmptySoup "" t ^ 2) = 0 ∧
    (0 : ℝ) ≠ 1 := by
  refine ⟨by decide, ?_, by norm_num⟩
  apply Finset.sum_eq_zero
  intro t _
  rw [nweight, weight, tf_empty_doc]
  norm_num

/-- C6 (amended): the Vectorizer assigns each (movie, term) pair the
normalized weight `tf × (log((1+N)/(1+df)) + 1) / ‖row‖`, with stop
words excluded from the vocabulary, and every movie whose raw vector is
nonzero ends up with unit squared Euclidean norm; a movie with no
vocabulary term (such as an empty soup) keeps the zero vector, whose
norm is 0, not 1 (see the counterexample). -/
theorem tfidf_weight_formula (stop corpus : List String) (d t : String)
    (h : rowNorm stop corpus d ≠ 0) :
    (∀ w ∈ stop, w ∉ vocab stop corpus) ∧
    nweight stop corpus d t =
      ((tf d t : ℝ) * (Real.log ((1 + corpus.length) / (1 + df corpus t)) + 1)) /
        rowNorm stop corpus d ∧
    ∑ w ∈ vocab stop corpus, nweight stop corpus d w ^ 2 = 1 := by
  refine ⟨?_, rfl, sum_nweight_sq h⟩
  intro w hw hmem
  rw [vocab, Finset.mem_filter] at hmem
  exact absurd hw (by simpa using hmem.2)

/-- Witness for C6 (amended) at a concrete one-movie corpus. -/
theorem tfidf_weight_formula_witness :
    rowNorm [] corpusOne "xy" ≠ 0 ∧
    ((∀ w ∈ ([] : List String), w ∉ vocab [] corpusOne) ∧
     nweight [] corpusOne "xy" "xy" =
       ((tf "xy" "xy" : ℝ) *
         (Real.log ((1 + corpusOne.length) / (1 + df corpusOne "xy")) + 1)) /
           rowNorm [] corpusOne "xy" ∧
     ∑ w ∈ vocab [] corpusOne, nweight [] corpusOne "xy" w ^ 2 = 1) :=
  ⟨by rw [rowNorm_corpusOne]; norm_num,
   tfidf_weight_formula [] corpusOne "xy" "xy" (by rw [rowNorm_corpusOne]; norm_num)⟩

/-- C7, counterexample: the corpus row of a movie with an entirely
empty soup is the zero vector, so its self-similarity is 0, not ≈ 1. -/
theorem sim_empty_soup_self_not_one :
    sim [] corpusEmptySoup 1 1 = 0 ∧ (0 : ℝ) ≠ 1 := by
  refine ⟨?_, by norm_num⟩
  rw [sim]
  apply Finset.sum_eq_zero
  intro t _
  have hd : corpusEmptySoup.getD 1 "" = "" := rfl
  rw [hd, nweight, weight, tf_empty_doc]
  norm_num

/-- C7 (amended): every movie whose raw TF-IDF vector is nonzero has
self-similarity exactly 1 (in exact arithmetic), and its diagonal entry
is maximal in its row; a movie with an all-zero vector (such as an
empty soup) has self-similarity 0 instead (see the counterexample). -/
theorem sim_diagonal (stop corpus : List String) (i : ℕ)
    (h : rowNorm stop corpus (corpus.getD i "") ≠ 0) :
    sim stop corpus i i = 1 ∧ ∀ j, sim stop corpus i j ≤ sim stop corpus i i := by
  have h1 := sim_self_eq_one h
  exact ⟨h1, fun j => by rw [h1]; exact sim_le_one stop corpus i j⟩

/-- Witness for C7 (amended) at a concrete one-movie corpus. -/
theorem sim_diagonal_witness :
    rowNorm [] corpusOne (corpusOne.getD 0 "") ≠ 0 ∧
    (sim [] corpusOne 0 0 = 1 ∧ ∀ j, sim [] corpusOne 0 j ≤ sim [] corpusOne 0 0) := by
  have hne : rowNorm [] corpusOne (corpusOne.getD 0 "") ≠ 0 := by
    show rowNorm [] corpusOne "xy" ≠ 0
    rw [rowNorm_corpusOne]
    norm_num
  exact ⟨hne, sim_diagonal [] corpusOne 0 hne⟩

/-- C8: the persisted similarity matrix is symmetric — entry (i, j)
equals entry (j, i) for all indices — and is square, with row count and
every row's length equal to the corpus length. -/
theorem similarity_symmetric_square (stop corpus : List String) (i j : ℕ) :
    matEntry stop corpus i j = matEntry stop corpus j i ∧
    (similarityMatrix stop corpus).length = corpus.length ∧
    ∀ r ∈ similarityMatrix stop corpus, r.length = corpus.length := by
  refine ⟨?_, by rw [similarityMatrix, List.length_map, List.length_range], ?_⟩
  · by_cases hij : i < corpus.length ∧ j < corpus.length
    · rw [matEntry_of_lt hij.1 hij.2, matEntry_of_lt hij.2 hij.1, sim_comm]
    · rw [matEntry_of_oob hij, matEntry_of_oob (by tauto)]
  · intro r hr
    rw [similarityMatrix] at hr
    obtain ⟨k, -, hk⟩ := List.mem_map.mp hr
    rw [← hk, List.length_map, List.length_range]

/-- C9: the pipeline is total — every pair of corpus indices, including
movies whose soup is completely empty, receives a well-defined
similarity score lying in [0, 1] (hence neither NaN nor infinite), and
the smoothed IDF value is a well-defined real ≥ 1 for every term. -/
theorem sim_defined_and_bounded (stop corpus : List String) (i j : ℕ) :
    (∀ t, 1 ≤ idf corpus t) ∧
    0 ≤ sim stop corpus i j ∧ sim stop corpus i j ≤ 1 :=
  ⟨fun t => one_le_idf corpus t, sim_nonneg stop corpus i j, sim_le_one stop corpus i j⟩

end CineMatch
